import Mathlib

/-!
Shallow embedding of the engagement-tracking core of `general_bot.py`:
the `DataManager` profile store (`get_user`, `add_xp`, `add_voice_time`,
`get_leaderboard`), the XP event handlers (`on_message`,
`on_voice_state_update`), the stats reconciler (`update_server_stats`)
and the read-side `rank` / `leaderboard` commands.

Modelling conventions:
- Python `dict` (insertion-ordered) is modelled as an association list
  `List (κ × α)`; assignment `d[k] = v` replaces in place when the key is
  present and appends at the end otherwise (`aset`).
- Python numbers: `int` is modelled as `ℤ`; `time.time()` values and the
  float `voice_time` accumulator as `ℚ` (exact arithmetic in place of
  IEEE floats); `int(x)` truncation toward zero is `pyInt`.
- `random.randint(15, 25)` in `on_message` is modelled as an explicit
  parameter `xp_amount` carrying the drawn value.
- Persistence (`save_data` writing the JSON file) is modelled by a
  `saved` snapshot inside `DB`; `save_data` copies the live map into it.
- The three stat-channel renames of `update_server_stats` sit inside a
  single `try`/`except`; a raising `edit` call is modelled by a failure
  oracle `fails : StatChan → Bool`, and a failure aborts the remaining
  edits of that pass (the `except` catches it and returns normally).
-/

namespace GeneralBot

/-- Python `int(q)` on a rational: truncation toward zero
(`floor` for non-negative values, `ceil` for negative ones). -/
def pyInt (q : ℚ) : ℤ := if 0 ≤ q then q.floor else q.ceil

/-- One member's engagement profile, the value stored under
`self.data[str(user_id)]`.  `voice_time` is `Option ℚ` because records
persisted by older revisions may lack the `"voice_time"` key;
`get_user` migrates such legacy records by inserting `0`. -/
structure Profile where
  xp : ℤ
  level : ℤ
  messages : ℤ
  voice_time : Option ℚ
  last_xp : ℚ
deriving DecidableEq

/-- The default profile inserted by `get_user` for an unknown member:
`{"xp": 0, "level": 1, "messages": 0, "voice_time": 0, "last_xp": 0}`. -/
def defaultProfile : Profile :=
  { xp := 0, level := 1, messages := 0, voice_time := some 0, last_xp := 0 }

/-- The profile map `self.data`, keyed by `str(user_id)`,
in insertion order like a Python dict. -/
abbrev Store := List (String × Profile)

/-- Association-list lookup, `d.get(k)` / `k in d`. -/
def alookup {κ α : Type} [DecidableEq κ] : List (κ × α) → κ → Option α
  | [], _ => none
  | (k, v) :: rest, key => if k = key then some v else alookup rest key

/-- Association-list assignment `d[k] = v`: replaces the value in place
when the key is present, appends at the end otherwise (Python dict
insertion-order semantics). -/
def aset {κ α : Type} [DecidableEq κ] (key : κ) (v : α) :
    List (κ × α) → List (κ × α)
  | [] => [(key, v)]
  | (k, w) :: rest => if k = key then (k, v) :: rest else (k, w) :: aset key v rest

/-- Association-list removal, `d.pop(k)`. -/
def aremove {κ α : Type} [DecidableEq κ] (key : κ) :
    List (κ × α) → List (κ × α)
  | [] => []
  | (k, w) :: rest => if k = key then rest else (k, w) :: aremove key rest

/-- The `DataManager` state that the claims touch: the live in-memory
profile map `data` and the `saved` snapshot standing for the contents of
the JSON file written by `save_data`. -/
structure DB where
  data : Store
  saved : Store
deriving DecidableEq

/-- `DataManager.save_data`: persists the whole current map. -/
def save_data (db : DB) : DB := { db with saved := db.data }

/-- `DataManager.get_user` (lines 46–51): inserts the default profile
when the id is absent, inserts `voice_time = 0` into a legacy record
lacking it, and returns the (now normalised) profile together with the
updated map. -/
def get_user (st : Store) (uid : String) : Profile × Store :=
  match alookup st uid with
  | none => (defaultProfile, aset uid defaultProfile st)
  | some p =>
    match p.voice_time with
    | none =>
      let p2 := { p with voice_time := some 0 }
      (p2, aset uid p2 st)
    | some _ => (p, st)

/-- The inlined level-up threshold of `add_xp` (line 56):
`5 * level ** 2 + 50 * level + 100`. -/
def next_level_xp (level : ℤ) : ℤ := 5 * level ^ 2 + 50 * level + 100

/-- `DataManager.add_xp` (lines 53–62): adds `amount` to `xp`, then a
single `if` check against the threshold — one level-up at most — and
saves in both branches.  Returns `(levelup?, level)` and the new state. -/
def add_xp (db : DB) (uid : String) (amount : ℤ) : (Bool × ℤ) × DB :=
  let gu := get_user db.data uid
  let user := { gu.1 with xp := gu.1.xp + amount }
  if next_level_xp user.level ≤ user.xp then
    let user2 := { user with level := user.level + 1 }
    ((true, user2.level), save_data { db with data := aset uid user2 gu.2 })
  else
    ((false, user.level), save_data { db with data := aset uid user gu.2 })

/-- `DataManager.add_voice_time` (lines 64–70): accumulates `seconds`
into `voice_time`, computes `xp_gain = int((seconds / 60) * 10)`, and
delegates to `add_xp` exactly when `xp_gain > 0`; otherwise saves with
no XP change and reports no level-up. -/
def add_voice_time (db : DB) (uid : String) (seconds : ℚ) : (Bool × ℤ) × DB :=
  let gu := get_user db.data uid
  let user := { gu.1 with voice_time := some (gu.1.voice_time.getD 0 + seconds) }
  let db1 : DB := { db with data := aset uid user gu.2 }
  let xp_gain := pyInt (seconds / 60 * 10)
  if 0 < xp_gain then add_xp db1 uid xp_gain
  else ((false, user.level), save_data db1)

/-- `DataManager.get_leaderboard` sorts with Python's stable
`sorted(..., reverse=True)`; `insertDesc` is the stable
descending-by-xp insertion used to model it: a later entry goes after
every earlier entry of greater *or equal* xp. -/
def insertDesc (e : String × Profile) :
    List (String × Profile) → List (String × Profile)
  | [] => [e]
  | q :: rest =>
    if e.2.xp ≤ q.2.xp then q :: insertDesc e rest else e :: q :: rest

/-- Stable sort of the profile items by descending `xp`, ties kept in
original (insertion) order — the semantics of
`sorted(self.data.items(), key=lambda x: x[1].get('xp', 0), reverse=True)`. -/
def sortByXpDesc (l : List (String × Profile)) : List (String × Profile) :=
  l.foldl (fun acc e => insertDesc e acc) []

/-- `DataManager.get_leaderboard` (lines 72–73): the stable descending
sort truncated to the first 50 entries.  The function takes no count
argument: the cap is unconditional. -/
def get_leaderboard (st : Store) : List (String × Profile) :=
  (sortByXpDesc st).take 50

/-- The `/leaderboard` command (lines 532–546) displays
`top_users[:10]` of `get_leaderboard`. -/
def leaderboard_top (st : Store) : List (String × Profile) :=
  (get_leaderboard st).take 10

/-- The `/rank` command (lines 505–511): fetches the target via
`db.get_user` (which may mutate the map), sorts the whole map by
descending xp, and reports the 1-based position, or `none` for the
`except` branch producing `"N/A"`.  No save is performed. -/
def rank_cmd (db : DB) (uid : String) : Option ℕ × DB :=
  let gu := get_user db.data uid
  let all_users := sortByXpDesc gu.2
  let ids := all_users.map Prod.fst
  (if uid ∈ ids then some (ids.indexOf uid + 1) else none, { db with data := gu.2 })

/-- `GeneralBot.on_message` (lines 303–316), XP part.  The author id is
`str(message.author.id)`; `author_bot` is `message.author.bot`,
`in_guild` is `message.guild is not None`, `now` models `time.time()`,
and `xp_amount` carries the value drawn by `random.randint(15, 25)`.
Returns the new state and `some (levelup?, level)` when XP was awarded. -/
def on_message (db : DB) (uid : String) (author_bot in_guild : Bool)
    (now : ℚ) (xp_amount : ℤ) : DB × Option (Bool × ℤ) :=
  if author_bot || !in_guild then (db, none)
  else
    let gu := get_user db.data uid
    if 10 < now - gu.1.last_xp then
      let user := { gu.1 with messages := gu.1.messages + 1, last_xp := now }
      let r := add_xp { db with data := aset uid user gu.2 } uid xp_amount
      (r.2, some r.1)
    else ({ db with data := gu.2 }, none)

/-- The in-memory `self.voice_sessions` map: member id (`int`) → join
timestamp (`time.time()`). -/
abbrev Sessions := List (ℕ × ℚ)

/-- `GeneralBot.on_voice_state_update` (lines 318–329), XP part.
`before`/`after` are the channel ids of `before.channel`/`after.channel`
(`none` = not in voice).  A join records the timestamp; a leave with a
matching session pops it and forwards the duration to `add_voice_time`;
a leave without a session, or a channel-to-channel move, changes
nothing.  Bot members are excluded. -/
def on_voice_state_update (db : DB) (sessions : Sessions) (member_id : ℕ)
    (member_bot : Bool) (before after : Option ℕ) (now : ℚ) :
    DB × Sessions × Option (Bool × ℤ) :=
  if member_bot then (db, sessions, none)
  else
    match before, after with
    | none, some _ => (db, aset member_id now sessions, none)
    | some _, none =>
      match alookup sessions member_id with
      | some join =>
        let r := add_voice_time db (toString member_id) (now - join)
        (r.2, aremove member_id sessions, some r.1)
      | none => (db, sessions, none)
    | _, _ => (db, sessions, none)

/-- The three bound stat display channels. -/
inductive StatChan
  | members
  | online
  | voice
deriving DecidableEq

/-- The guild-side view `update_server_stats` works on: the three
freshly computed counts and, for each bound channel id found via
`guild.get_channel`, its current name (`none` when unbound or not
found — the truthiness check `if c_members and ...` skips it). -/
structure GuildStats where
  member_count : ℕ
  online_count : ℕ
  voice_count : ℕ
  members_chan : Option String
  online_chan : Option String
  voice_chan : Option String
deriving DecidableEq

/-- The f-string label `f"👥 Membres : {member_count}"`. -/
def membersLabel (n : ℕ) : String := "👥 Membres : " ++ toString n

/-- The f-string label `f"🟢 En ligne : {online_count}"`. -/
def onlineLabel (n : ℕ) : String := "🟢 En ligne : " ++ toString n

/-- The f-string label `f"🔊 En vocal : {voice_count}"`. -/
def voiceLabel (n : ℕ) : String := "🔊 En vocal : " ++ toString n

/-- Third `await ... .edit` of `update_server_stats` (line 349): rename
the voice-count channel if bound and its name differs.  A failing edit
(`fails .voice`) raises into the shared `except`, leaving the name
unchanged.  Returns the attempted renames and the resulting view. -/
def tryEditVoice (g : GuildStats) (fails : StatChan → Bool) :
    List StatChan × GuildStats :=
  match g.voice_chan with
  | some nm =>
    if nm ≠ voiceLabel g.voice_count then
      if fails .voice then ([.voice], g)
      else ([.voice], { g with voice_chan := some (voiceLabel g.voice_count) })
    else ([], g)
  | none => ([], g)

/-- Second `await ... .edit` (line 348), then falls through to the
voice edit; a failure raises past the remaining edits into the shared
`except`. -/
def tryEditOnline (g : GuildStats) (fails : StatChan → Bool) :
    List StatChan × GuildStats :=
  match g.online_chan with
  | some nm =>
    if nm ≠ onlineLabel g.online_count then
      if fails .online then ([.online], g)
      else
        let r := tryEditVoice { g with online_chan := some (onlineLabel g.online_count) } fails
        (.online :: r.1, r.2)
    else tryEditVoice g fails
  | none => tryEditVoice g fails

/-- First `await ... .edit` (line 347), then falls through to the
online and voice edits; a failure raises past both into the shared
`except`. -/
def tryEditMembers (g : GuildStats) (fails : StatChan → Bool) :
    List StatChan × GuildStats :=
  match g.members_chan with
  | some nm =>
    if nm ≠ membersLabel g.member_count then
      if fails .members then ([.members], g)
      else
        let r := tryEditOnline { g with members_chan := some (membersLabel g.member_count) } fails
        (.members :: r.1, r.2)
    else tryEditOnline g fails
  | none => tryEditOnline g fails

/-- `GeneralBot.update_server_stats` (lines 334–350): does nothing when
the guild has no config entry (`configured = false`); otherwise runs
the three conditional renames inside one `try`/`except`, so the first
failing edit aborts the rest of the pass but is caught (the function
always returns normally).  Returns the renames attempted, in order, and
the resulting channel names. -/
def update_server_stats (configured : Bool) (g : GuildStats)
    (fails : StatChan → Bool) : List StatChan × GuildStats :=
  if configured then tryEditMembers g fails else ([], g)

/-- `needsRename g c` holds when channel `c` is bound, was found, and
its current name differs from the freshly computed label. -/
def needsRename (g : GuildStats) : StatChan → Prop
  | .members => ∃ nm, g.members_chan = some nm ∧ nm ≠ membersLabel g.member_count
  | .online => ∃ nm, g.online_chan = some nm ∧ nm ≠ onlineLabel g.online_count
  | .voice => ∃ nm, g.voice_chan = some nm ∧ nm ≠ voiceLabel g.voice_count

/-- Descending-xp ordering on leaderboard entries: `a` sorts no later
than `b` when `a`'s xp is at least `b`'s. -/
def xpDescRel (a b : String × Profile) : Prop := b.2.xp ≤ a.2.xp

/-- The Boolean predicate selecting the entries of one xp value, used
to state sort stability. -/
def hasXp (v : ℤ) (e : String × Profile) : Bool := e.2.xp = v

/-- Observer used by the invariant claims: the member's profile as
`get_user` would report it (defaults for an absent member). -/
def profileOf (st : Store) (uid : String) : Profile := (get_user st uid).1

/-- The intermediate state of `add_voice_time` right after the in-place
mutation `user["voice_time"] += seconds`, before the XP decision. -/
def voiceUpdatedDB (db : DB) (uid : String) (seconds : ℚ) : DB :=
  { db with data := (aset uid
      ({ (get_user db.data uid).1 with voice_time := some (((get_user db.data uid).1).voice_time.getD 0 + seconds) })
      (get_user db.data uid).2) }

/-- The intermediate state of `on_message`'s eligible branch right
after the in-place mutations `user["messages"] += 1` and
`user["last_xp"] = time.time()`, before the `add_xp` call. -/
def messageStampedDB (db : DB) (uid : String) (now : ℚ) : DB :=
  { db with data := (aset uid
      ({ (get_user db.data uid).1 with messages := ((get_user db.data uid).1).messages + 1, last_xp := now })
      (get_user db.data uid).2) }

/-- A legacy persisted record lacking the `"voice_time"` key, with a
recent `last_xp`; used to exhibit the state change performed by
`get_user` on the cooldown-blocked path of `on_message`. -/
def legacyP : Profile :=
  { xp := 50, level := 1, messages := 3, voice_time := none, last_xp := 100 }

/-- A one-member store holding the default profile, and the manager
state built on it. -/
def storeOne : Store := [("1", defaultProfile)]

/-- The manager state whose live and saved maps are `storeOne`. -/
def dbOne : DB := { data := storeOne, saved := storeOne }

/-- The store holding only the legacy record, and the manager state
built on it. -/
def legacyStore : Store := [("1", legacyP)]

/-- The manager state whose live and saved maps are `legacyStore`. -/
def legacyDB : DB := { data := legacyStore, saved := legacyStore }

/-- The empty manager state. -/
def emptyDB : DB := { data := [], saved := [] }

/-- A guild view whose three bound channels all need renaming. -/
def gStale : GuildStats :=
  { member_count := 5, online_count := 3, voice_count := 2,
    members_chan := some "old-members", online_chan := some "old-online",
    voice_chan := some "old-voice" }

/-- A guild view whose three bound channels already carry the computed
labels. -/
def gFresh : GuildStats :=
  { member_count := 5, online_count := 3, voice_count := 2,
    members_chan := some (membersLabel 5), online_chan := some (onlineLabel 3),
    voice_chan := some (voiceLabel 2) }

/-! ### Basic association-list lemmas -/

theorem alookup_aset_self {κ α : Type} [DecidableEq κ] (l : List (κ × α))
    (k : κ) (v : α) : alookup (aset k v l) k = some v := by
  induction l with
  | nil => simp [aset, alookup]
  | cons hd tl ih =>
    obtain ⟨k1, v1⟩ := hd
    by_cases h : k1 = k
    · simp [aset, alookup, h]
    · simp [aset, alookup, h, ih]

theorem alookup_aset_ne {κ α : Type} [DecidableEq κ] (l : List (κ × α))
    (k k2 : κ) (v : α) (h : k2 ≠ k) :
    alookup (aset k v l) k2 = alookup l k2 := by
  induction l with
  | nil =>
    simp only [aset, alookup]
    rw [if_neg (fun hh : k = k2 => h hh.symm)]
  | cons hd tl ih =>
    obtain ⟨k1, v1⟩ := hd
    by_cases h1 : k1 = k
    · subst h1
      simp only [aset, if_pos rfl, alookup]
      rw [if_neg (fun hh : k1 = k2 => h hh.symm),
        if_neg (fun hh : k1 = k2 => h hh.symm)]
    · by_cases h2 : k1 = k2 <;> simp [aset, alookup, h1, h2, ih, h]

theorem aset_of_absent {κ α : Type} [DecidableEq κ] (l : List (κ × α))
    (k : κ) (v : α) (h : alookup l k = none) : aset k v l = l ++ [(k, v)] := by
  induction l with
  | nil => simp [aset]
  | cons hd tl ih =>
    obtain ⟨k1, v1⟩ := hd
    by_cases h1 : k1 = k
    · simp [alookup, h1] at h
    · simp only [alookup, h1, if_false, ite_false] at h
      simp [aset, h1, ih h]

/-! ### `get_user` case lemmas -/

theorem get_user_absent (st : Store) (uid : String)
    (h : alookup st uid = none) :
    get_user st uid = (defaultProfile, st ++ [(uid, defaultProfile)]) := by
  simp only [get_user, h, aset_of_absent st uid defaultProfile h]

theorem get_user_legacy (st : Store) (uid : String) (p : Profile)
    (h : alookup st uid = some p) (hv : p.voice_time = none) :
    get_user st uid =
      ({ p with voice_time := some 0 },
        aset uid { p with voice_time := some 0 } st) := by
  simp only [get_user, h, hv]

theorem get_user_present (st : Store) (uid : String) (p : Profile) (q : ℚ)
    (h : alookup st uid = some p) (hv : p.voice_time = some q) :
    get_user st uid = (p, st) := by
  simp only [get_user, h, hv]

/-- The profile returned by `get_user` always carries a `voice_time`
value: the default and the legacy migration both set it. -/
theorem get_user_voice_time_isSome (st : Store) (uid : String) :
    ((get_user st uid).1).voice_time.isSome := by
  rcases h : alookup st uid with _ | p
  · simp [get_user, h, defaultProfile]
  · rcases hv : p.voice_time with _ | q
    · simp [get_user, h, hv]
    · simp [get_user, h, hv]

/-- After `get_user`, the returned profile is what the returned map
stores under the id. -/
theorem get_user_lookup_self (st : Store) (uid : String) :
    alookup (get_user st uid).2 uid = some (get_user st uid).1 := by
  rcases h : alookup st uid with _ | p
  · simp only [get_user, h]
    exact alookup_aset_self st uid defaultProfile
  · rcases hv : p.voice_time with _ | q
    · simp only [get_user, h, hv]
      exact alookup_aset_self st uid _
    · simp only [get_user, h, hv]

/-- `get_user` touches no other member's entry. -/
theorem get_user_lookup_other (st : Store) (uid k : String) (h : k ≠ uid) :
    alookup (get_user st uid).2 k = alookup st k := by
  rcases h1 : alookup st uid with _ | p
  · simp only [get_user, h1]
    exact alookup_aset_ne st uid k defaultProfile h
  · rcases hv : p.voice_time with _ | q
    · simp only [get_user, h1, hv]
      exact alookup_aset_ne st uid k _ h
    · simp only [get_user, h1, hv]

/-- A second `get_user` on the state produced by a first one is the
identity: the profile is already present and normalised. -/
theorem get_user_idem (st : Store) (uid : String) :
    get_user (get_user st uid).2 uid =
      ((get_user st uid).1, (get_user st uid).2) := by
  have h1 := get_user_lookup_self st uid
  have h2 := get_user_voice_time_isSome st uid
  rcases hv : ((get_user st uid).1).voice_time with _ | q
  · rw [hv] at h2; simp at h2
  · exact get_user_present _ uid _ q h1 hv

/-! ### `pyInt` on non-negative arguments -/

theorem pyInt_of_nonneg (q : ℚ) (h : 0 ≤ q) : pyInt q = ⌊q⌋ := by
  rw [pyInt, if_pos h]
  rfl

/-! ### `add_xp` case lemmas -/

/-- `add_xp` when the single threshold check fires: the level rises by
exactly one, regardless of how far `xp` exceeds the threshold. -/
theorem add_xp_of_levelup (db : DB) (uid : String) (amount : ℤ)
    (h : next_level_xp ((get_user db.data uid).1).level ≤
      ((get_user db.data uid).1).xp + amount) :
    add_xp db uid amount =
      ((true, ((get_user db.data uid).1).level + 1),
        let d := aset uid
          { (get_user db.data uid).1 with
              xp := ((get_user db.data uid).1).xp + amount,
              level := ((get_user db.data uid).1).level + 1 }
          (get_user db.data uid).2
        { data := d, saved := d }) := by
  simp only [add_xp, save_data, if_pos h]

/-- `add_xp` when the threshold is not reached: level unchanged. -/
theorem add_xp_of_no_levelup (db : DB) (uid : String) (amount : ℤ)
    (h : ¬ next_level_xp ((get_user db.data uid).1).level ≤
      ((get_user db.data uid).1).xp + amount) :
    add_xp db uid amount =
      ((false, ((get_user db.data uid).1).level),
        let d := aset uid
          { (get_user db.data uid).1 with
              xp := ((get_user db.data uid).1).xp + amount }
          (get_user db.data uid).2
        { data := d, saved := d }) := by
  simp only [add_xp, save_data, if_neg h]

/-- The profile stored after `add_xp`: xp grew by `amount`, the level
by one exactly when the returned flag is `true`, and the returned level
is the stored level. -/
theorem add_xp_lookup (db : DB) (uid : String) (amount : ℤ) :
    alookup (add_xp db uid amount).2.data uid =
      some { (get_user db.data uid).1 with
        xp := ((get_user db.data uid).1).xp + amount,
        level := ((get_user db.data uid).1).level +
          (if (add_xp db uid amount).1.1 then 1 else 0) } ∧
    (add_xp db uid amount).1.2 = ((get_user db.data uid).1).level +
      (if (add_xp db uid amount).1.1 then 1 else 0) := by
  by_cases h : next_level_xp ((get_user db.data uid).1).level ≤
      ((get_user db.data uid).1).xp + amount
  · rw [add_xp_of_levelup db uid amount h]
    simp [alookup_aset_self]
  · rw [add_xp_of_no_levelup db uid amount h]
    simp [alookup_aset_self]

/-- `add_xp` leaves other members' entries unchanged. -/
theorem add_xp_lookup_other (db : DB) (uid k : String) (amount : ℤ)
    (h : k ≠ uid) :
    alookup (add_xp db uid amount).2.data k = alookup db.data k := by
  by_cases hl : next_level_xp ((get_user db.data uid).1).level ≤
      ((get_user db.data uid).1).xp + amount
  · rw [add_xp_of_levelup db uid amount hl]
    simp only
    rw [alookup_aset_ne _ uid k _ h]
    exact get_user_lookup_other db.data uid k h
  · rw [add_xp_of_no_levelup db uid amount hl]
    simp only
    rw [alookup_aset_ne _ uid k _ h]
    exact get_user_lookup_other db.data uid k h

/-! ### `add_voice_time` case lemmas -/

/-- `add_voice_time` when the truncated gain is positive: the voice
accumulator grows by `seconds` and the XP award is delegated to
`add_xp` on the already-updated state. -/
theorem add_voice_time_of_gain (db : DB) (uid : String) (seconds : ℚ)
    (h : 0 < pyInt (seconds / 60 * 10)) :
    add_voice_time db uid seconds =
      add_xp (voiceUpdatedDB db uid seconds) uid (pyInt (seconds / 60 * 10)) := by
  simp only [add_voice_time, voiceUpdatedDB, if_pos h]

/-- `add_voice_time` when the truncated gain is not positive: the voice
accumulator still grows by `seconds`, no XP is awarded, no level-up is
reported, and the state is saved. -/
theorem add_voice_time_of_no_gain (db : DB) (uid : String) (seconds : ℚ)
    (h : ¬ 0 < pyInt (seconds / 60 * 10)) :
    add_voice_time db uid seconds =
      ((false, ((get_user db.data uid).1).level),
        save_data (voiceUpdatedDB db uid seconds)) := by
  simp only [add_voice_time, save_data, voiceUpdatedDB, if_neg h]

/-! ### `on_message` case lemmas -/

/-- `on_message` for a non-bot guild message clearing the cooldown:
the message counter and the timestamp are updated, then the XP award is
delegated to `add_xp`. -/
theorem on_message_of_eligible (db : DB) (uid : String) (now : ℚ)
    (amt : ℤ) (h : 10 < now - ((get_user db.data uid).1).last_xp) :
    on_message db uid false true now amt =
      ((add_xp (messageStampedDB db uid now) uid amt).2,
        some (add_xp (messageStampedDB db uid now) uid amt).1) := by
  simp only [on_message, messageStampedDB, Bool.false_or, Bool.not_true,
    if_pos h]
  rfl

/-- `on_message` for a non-bot guild message inside the cooldown: no
award, no counter change; the state changes only by the `get_user`
lookup normalisation, and nothing is saved. -/
theorem on_message_of_cooldown (db : DB) (uid : String) (now : ℚ)
    (amt : ℤ) (h : ¬ 10 < now - ((get_user db.data uid).1).last_xp) :
    on_message db uid false true now amt =
      ({ db with data := (get_user db.data uid).2 }, none) := by
  simp only [on_message, Bool.false_or, Bool.not_true, if_neg h]
  rfl

/-! ### Stable descending sort lemmas -/

theorem insertDesc_perm (e : String × Profile) (l : List (String × Profile)) :
    List.Perm (insertDesc e l) (e :: l) := by
  induction l with
  | nil => simp [insertDesc]
  | cons q rest ih =>
    by_cases h : e.2.xp ≤ q.2.xp
    · simp only [insertDesc, if_pos h]
      exact (ih.cons q).trans (List.Perm.swap e q rest)
    · simp [insertDesc, if_neg h]

theorem mem_insertDesc (x e : String × Profile) (l : List (String × Profile)) :
    x ∈ insertDesc e l ↔ x = e ∨ x ∈ l := by
  rw [(insertDesc_perm e l).mem_iff]
  simp

theorem insertDesc_pairwise (e : String × Profile)
    (l : List (String × Profile)) (h : List.Pairwise xpDescRel l) :
    List.Pairwise xpDescRel (insertDesc e l) := by
  induction l with
  | nil => simp [insertDesc]
  | cons q rest ih =>
    rcases List.pairwise_cons.mp h with ⟨hq, hrest⟩
    by_cases hle : e.2.xp ≤ q.2.xp
    · simp only [insertDesc, if_pos hle]
      refine List.pairwise_cons.mpr ⟨?_, ih hrest⟩
      intro x hx
      rcases (mem_insertDesc x e rest).mp hx with rfl | hx
      · exact hle
      · exact hq x hx
    · simp only [insertDesc, if_neg hle]
      refine List.pairwise_cons.mpr ⟨?_, h⟩
      intro x hx
      rcases List.mem_cons.mp hx with rfl | hx
      · exact le_of_not_le hle
      · exact le_trans (hq x hx) (le_of_not_le hle)

theorem foldl_insertDesc_pairwise (l acc : List (String × Profile))
    (h : List.Pairwise xpDescRel acc) :
    List.Pairwise xpDescRel (l.foldl (fun a e => insertDesc e a) acc) := by
  induction l generalizing acc with
  | nil => simpa using h
  | cons e rest ih =>
    simpa using ih (insertDesc e acc) (insertDesc_pairwise e acc h)

theorem sortByXpDesc_pairwise (l : List (String × Profile)) :
    List.Pairwise xpDescRel (sortByXpDesc l) :=
  foldl_insertDesc_pairwise l [] (by simp)

theorem foldl_insertDesc_perm (l acc : List (String × Profile)) :
    List.Perm (l.foldl (fun a e => insertDesc e a) acc) (acc ++ l) := by
  induction l generalizing acc with
  | nil => simp
  | cons e rest ih =>
    have h1 : List.Perm (rest.foldl (fun a e => insertDesc e a) (insertDesc e acc))
        ((insertDesc e acc) ++ rest) := ih (insertDesc e acc)
    have h2 : List.Perm ((insertDesc e acc) ++ rest) ((e :: acc) ++ rest) :=
      (insertDesc_perm e acc).append_right rest
    simpa using (h1.trans h2).trans List.perm_middle.symm

theorem sortByXpDesc_perm (l : List (String × Profile)) :
    List.Perm (sortByXpDesc l) l := by
  simpa using foldl_insertDesc_perm l []

theorem insertDesc_filter (v : ℤ) (e : String × Profile)
    (l : List (String × Profile)) (h : List.Pairwise xpDescRel l) :
    (insertDesc e l).filter (hasXp v) =
      if e.2.xp = v then l.filter (hasXp v) ++ [e] else l.filter (hasXp v) := by
  induction l with
  | nil =>
    by_cases he : e.2.xp = v <;> simp [insertDesc, hasXp, he]
  | cons q rest ih =>
    rcases List.pairwise_cons.mp h with ⟨hq, hrest⟩
    by_cases hle : e.2.xp ≤ q.2.xp
    · simp only [insertDesc, if_pos hle, List.filter_cons, ih hrest]
      by_cases he : e.2.xp = v <;> by_cases hqv : q.2.xp = v <;>
        simp [hasXp, he, hqv]
    · have hlt : q.2.xp < e.2.xp := lt_of_not_le hle
      simp only [insertDesc, if_neg hle]
      by_cases he : e.2.xp = v
      · have hnil : (q :: rest).filter (hasXp v) = [] := by
          rw [List.filter_eq_nil_iff]
          intro x hx
          have hxle : x.2.xp ≤ q.2.xp := by
            rcases List.mem_cons.mp hx with rfl | hx
            · exact le_refl _
            · exact hq x hx
          have : x.2.xp ≠ v := by
            intro hv
            rw [← he] at hv
            exact absurd (hv ▸ hxle) (not_le.mpr (hv ▸ hlt))
          simpa [hasXp] using this
        rw [if_pos he, hnil, List.filter_cons]
        simp [hasXp, he, List.filter_cons_of_neg, hnil]
      · rw [if_neg he, List.filter_cons]
        simp [hasXp, he]

theorem foldl_insertDesc_filter (v : ℤ) (l acc : List (String × Profile))
    (h : List.Pairwise xpDescRel acc) :
    (l.foldl (fun a e => insertDesc e a) acc).filter (hasXp v) =
      acc.filter (hasXp v) ++ l.filter (hasXp v) := by
  induction l generalizing acc with
  | nil => simp
  | cons e rest ih =>
    have h2 := ih (insertDesc e acc) (insertDesc_pairwise e acc h)
    simp only [List.foldl_cons] at h2 ⊢
    rw [h2, insertDesc_filter v e acc h, List.filter_cons]
    by_cases he : e.2.xp = v <;> simp [hasXp, he]

/-- Stability of the leaderboard sort: for every xp value, the entries
carrying that value appear in the sorted list exactly in their
original (insertion) order. -/
theorem sortByXpDesc_filter (v : ℤ) (l : List (String × Profile)) :
    (sortByXpDesc l).filter (hasXp v) = l.filter (hasXp v) := by
  simpa using foldl_insertDesc_filter v l [] (by simp)

/-! ### `profileOf` bridging lemmas -/

theorem profileOf_of_lookup (st : Store) (uid : String) (p : Profile)
    (q : ℚ) (h : alookup st uid = some p) (hq : p.voice_time = some q) :
    profileOf st uid = p := by
  simp [profileOf, get_user_present st uid p q h hq]

/-- The stored profile after `add_xp`, read back through `profileOf`. -/
theorem add_xp_profileOf (db : DB) (uid : String) (amount : ℤ) :
    profileOf (add_xp db uid amount).2.data uid =
      { profileOf db.data uid with
          xp := (profileOf db.data uid).xp + amount,
          level := (profileOf db.data uid).level +
            (if (add_xp db uid amount).1.1 then 1 else 0) } := by
  obtain ⟨q, hq⟩ := Option.isSome_iff_exists.mp
    (get_user_voice_time_isSome db.data uid)
  exact profileOf_of_lookup _ uid _ q (add_xp_lookup db uid amount).1 hq

/-- `on_message` when the author is a bot or the message is outside a
guild: nothing at all happens. -/
theorem on_message_skip (db : DB) (uid : String) (b g : Bool)
    (now : ℚ) (amt : ℤ) (h : b = true ∨ g = false) :
    on_message db uid b g now amt = (db, none) := by
  rcases h with rfl | rfl
  · simp [on_message]
  · cases b <;> simp [on_message]

/-- `get_user` inside `messageStampedDB` finds the freshly stamped
profile. -/
theorem messageStampedDB_get_user (db : DB) (uid : String) (now : ℚ) :
    get_user (messageStampedDB db uid now).data uid =
      ({ (get_user db.data uid).1 with
          messages := ((get_user db.data uid).1).messages + 1,
          last_xp := now },
        (messageStampedDB db uid now).data) := by
  obtain ⟨q, hq⟩ := Option.isSome_iff_exists.mp
    (get_user_voice_time_isSome db.data uid)
  exact get_user_present _ uid _ q (alookup_aset_self _ uid _) hq

/-- `get_user` inside `voiceUpdatedDB` finds the updated profile. -/
theorem voiceUpdatedDB_get_user (db : DB) (uid : String) (seconds : ℚ) :
    get_user (voiceUpdatedDB db uid seconds).data uid =
      ({ (get_user db.data uid).1 with
          voice_time := some (((get_user db.data uid).1).voice_time.getD 0 + seconds) },
        (voiceUpdatedDB db uid seconds).data) :=
  get_user_present _ uid _
    (((get_user db.data uid).1).voice_time.getD 0 + seconds)
    (alookup_aset_self _ uid _) rfl

/-- The stored profile after an eligible (cooldown-cleared) message:
message count up by one, timestamp stamped, xp up by the drawn amount,
level up by one exactly when the threshold was crossed. -/
theorem on_message_eligible_profile (db : DB) (uid : String) (now : ℚ)
    (amt : ℤ) (h : 10 < now - ((get_user db.data uid).1).last_xp) :
    profileOf (on_message db uid false true now amt).1.data uid =
      { (get_user db.data uid).1 with
          messages := ((get_user db.data uid).1).messages + 1,
          last_xp := now,
          xp := ((get_user db.data uid).1).xp + amt,
          level := ((get_user db.data uid).1).level +
            (if next_level_xp ((get_user db.data uid).1).level ≤
              ((get_user db.data uid).1).xp + amt then 1 else 0) } ∧
    (on_message db uid false true now amt).2.isSome := by
  rw [on_message_of_eligible db uid now amt h]
  refine ⟨?_, by simp⟩
  rw [add_xp_profileOf (messageStampedDB db uid now) uid amt]
  have hpro : profileOf (messageStampedDB db uid now).data uid =
      { (get_user db.data uid).1 with
          messages := ((get_user db.data uid).1).messages + 1,
          last_xp := now } := by
    simp [profileOf, messageStampedDB_get_user db uid now]
  rw [hpro]
  by_cases hc : next_level_xp ((get_user db.data uid).1).level ≤
      ((get_user db.data uid).1).xp + amt
  · have hc2 : next_level_xp
        ((get_user (messageStampedDB db uid now).data uid).1).level ≤
        ((get_user (messageStampedDB db uid now).data uid).1).xp + amt := by
      rw [messageStampedDB_get_user db uid now]
      exact hc
    rw [add_xp_of_levelup _ uid amt hc2, if_pos hc]
    simp
  · have hc2 : ¬ next_level_xp
        ((get_user (messageStampedDB db uid now).data uid).1).level ≤
        ((get_user (messageStampedDB db uid now).data uid).1).xp + amt := by
      rw [messageStampedDB_get_user db uid now]
      exact hc
    rw [add_xp_of_no_levelup _ uid amt hc2, if_neg hc]
    simp

/-! ### Stat-channel reconciliation lemmas -/

theorem tryEditVoice_attempts (g : GuildStats) (fails : StatChan → Bool) :
    ∀ c ∈ (tryEditVoice g fails).1, needsRename g c := by
  intro c hc
  rcases hv : g.voice_chan with _ | nm <;>
    rw [tryEditVoice] at hc <;> simp only [hv] at hc
  · simp at hc
  · split_ifs at hc with h1 h2 <;> simp_all [needsRename]

theorem tryEditOnline_attempts (g : GuildStats) (fails : StatChan → Bool) :
    ∀ c ∈ (tryEditOnline g fails).1, needsRename g c := by
  intro c hc
  rcases ho : g.online_chan with _ | nm <;>
    rw [tryEditOnline] at hc <;> simp only [ho] at hc
  · exact tryEditVoice_attempts g fails c hc
  · split_ifs at hc with h1 h2
    · simp only [List.mem_singleton] at hc
      subst hc
      exact ⟨nm, ho, h1⟩
    · simp only [List.mem_cons] at hc
      rcases hc with rfl | hc
      · exact ⟨nm, ho, h1⟩
      · have h3 := tryEditVoice_attempts
          { g with online_chan := some (onlineLabel g.online_count) } fails c hc
        rcases c with _ | _ | _ <;> simp_all [needsRename]
    · exact tryEditVoice_attempts g fails c hc

theorem tryEditMembers_attempts (g : GuildStats) (fails : StatChan → Bool) :
    ∀ c ∈ (tryEditMembers g fails).1, needsRename g c := by
  intro c hc
  rcases hm : g.members_chan with _ | nm <;>
    rw [tryEditMembers] at hc <;> simp only [hm] at hc
  · exact tryEditOnline_attempts g fails c hc
  · split_ifs at hc with h1 h2
    · simp only [List.mem_singleton] at hc
      subst hc
      exact ⟨nm, hm, h1⟩
    · simp only [List.mem_cons] at hc
      rcases hc with rfl | hc
      · exact ⟨nm, hm, h1⟩
      · have h3 := tryEditOnline_attempts
          { g with members_chan := some (membersLabel g.member_count) } fails c hc
        rcases c with _ | _ | _ <;> simp_all [needsRename]
    · exact tryEditOnline_attempts g fails c hc

theorem tryEditVoice_fresh (g : GuildStats) (fails : StatChan → Bool)
    (h : ∀ nm, g.voice_chan = some nm → nm = voiceLabel g.voice_count) :
    tryEditVoice g fails = ([], g) := by
  rcases hv : g.voice_chan with _ | nm
  · simp [tryEditVoice, hv]
  · simp [tryEditVoice, hv, h nm hv]

theorem tryEditOnline_fresh (g : GuildStats) (fails : StatChan → Bool)
    (ho : ∀ nm, g.online_chan = some nm → nm = onlineLabel g.online_count)
    (hv : ∀ nm, g.voice_chan = some nm → nm = voiceLabel g.voice_count) :
    tryEditOnline g fails = ([], g) := by
  rcases h1 : g.online_chan with _ | nm
  · simp only [tryEditOnline, h1]
    exact tryEditVoice_fresh g fails hv
  · simp only [tryEditOnline, h1, ho nm h1, ne_eq, not_true_eq_false, if_false,
      reduceIte]
    exact tryEditVoice_fresh g fails hv

theorem tryEditMembers_fresh (g : GuildStats) (fails : StatChan → Bool)
    (hm : ∀ nm, g.members_chan = some nm → nm = membersLabel g.member_count)
    (ho : ∀ nm, g.online_chan = some nm → nm = onlineLabel g.online_count)
    (hv : ∀ nm, g.voice_chan = some nm → nm = voiceLabel g.voice_count) :
    tryEditMembers g fails = ([], g) := by
  rcases h1 : g.members_chan with _ | nm
  · simp only [tryEditMembers, h1]
    exact tryEditOnline_fresh g fails ho hv
  · simp only [tryEditMembers, h1, hm nm h1, ne_eq, not_true_eq_false, if_false,
      reduceIte]
    exact tryEditOnline_fresh g fails ho hv

/-- A failing rename of the members channel is caught but aborts the
whole pass: only the members rename was attempted, nothing changed. -/
theorem tryEditMembers_fail (g : GuildStats) (fails : StatChan → Bool)
    (nm : String) (h1 : g.members_chan = some nm)
    (h2 : nm ≠ membersLabel g.member_count)
    (h3 : fails StatChan.members = true) :
    tryEditMembers g fails = ([StatChan.members], g) := by
  simp [tryEditMembers, h1, h2, h3]

/-- A failing rename of the voice channel is caught: the voice edit is
the only attempt of this stage and the view is unchanged. -/
theorem tryEditVoice_fail (g : GuildStats) (fails : StatChan → Bool)
    (nm : String) (h1 : g.voice_chan = some nm)
    (h2 : nm ≠ voiceLabel g.voice_count)
    (h3 : fails StatChan.voice = true) :
    tryEditVoice g fails = ([StatChan.voice], g) := by
  simp [tryEditVoice, h1, h2, h3]

/-- A failing rename of the online channel is caught but aborts the
rest of this stage: the voice edit is never reached. -/
theorem tryEditOnline_fail (g : GuildStats) (fails : StatChan → Bool)
    (nm : String) (h1 : g.online_chan = some nm)
    (h2 : nm ≠ onlineLabel g.online_count)
    (h3 : fails StatChan.online = true) :
    tryEditOnline g fails = ([StatChan.online], g) := by
  simp [tryEditOnline, h1, h2, h3]

/-- Through the online stage, a failing voice rename is attempted but
leaves the voice channel's name unchanged, provided the online rename
itself does not raise first. -/
theorem tryEditOnline_voice_fail (g : GuildStats) (fails : StatChan → Bool)
    (nm : String) (h1 : g.voice_chan = some nm)
    (h2 : nm ≠ voiceLabel g.voice_count)
    (h3 : fails StatChan.voice = true)
    (h4 : needsRename g StatChan.online → fails StatChan.online = false) :
    StatChan.voice ∈ (tryEditOnline g fails).1 ∧
    (tryEditOnline g fails).2.voice_chan = g.voice_chan := by
  have hvf : tryEditVoice g fails = ([StatChan.voice], g) :=
    tryEditVoice_fail g fails nm h1 h2 h3
  have hvf2 : tryEditVoice
      { g with online_chan := some (onlineLabel g.online_count) } fails =
      ([StatChan.voice],
        { g with online_chan := some (onlineLabel g.online_count) }) :=
    tryEditVoice_fail _ fails nm h1 h2 h3
  rcases ho : g.online_chan with _ | no
  · rw [tryEditOnline]
    simp only [ho]
    rw [hvf]
    simp
  · rw [tryEditOnline]
    simp only [ho]
    split_ifs with hx hf
    · simp [h4 ⟨no, ho, hx⟩] at hf
    · rw [hvf2]
      simp
    · rw [hvf]
      simp

/-- Through the whole pass, a failing online rename is attempted but
leaves the online and voice channels' names unchanged and suppresses
the voice rename, provided the members rename does not raise first. -/
theorem tryEditMembers_online_fail (g : GuildStats)
    (fails : StatChan → Bool) (nm : String)
    (h1 : g.online_chan = some nm)
    (h2 : nm ≠ onlineLabel g.online_count)
    (h3 : fails StatChan.online = true)
    (h5 : needsRename g StatChan.members → fails StatChan.members = false) :
    StatChan.online ∈ (tryEditMembers g fails).1 ∧
    StatChan.voice ∉ (tryEditMembers g fails).1 ∧
    (tryEditMembers g fails).2.online_chan = g.online_chan ∧
    (tryEditMembers g fails).2.voice_chan = g.voice_chan := by
  have hof : tryEditOnline g fails = ([StatChan.online], g) :=
    tryEditOnline_fail g fails nm h1 h2 h3
  have hof2 : tryEditOnline
      { g with members_chan := some (membersLabel g.member_count) } fails =
      ([StatChan.online],
        { g with members_chan := some (membersLabel g.member_count) }) :=
    tryEditOnline_fail _ fails nm h1 h2 h3
  rcases hm : g.members_chan with _ | mn
  · rw [tryEditMembers]
    simp only [hm]
    rw [hof]
    simp
  · rw [tryEditMembers]
    simp only [hm]
    split_ifs with hx hf
    · simp [h5 ⟨mn, hm, hx⟩] at hf
    · rw [hof2]
      simp
    · rw [hof]
      simp

/-- Through the whole pass, a failing voice rename is attempted but
leaves the voice channel's name unchanged, provided neither of the two
earlier renames raises first. -/
theorem tryEditMembers_voice_fail (g : GuildStats)
    (fails : StatChan → Bool) (nm : String)
    (h1 : g.voice_chan = some nm)
    (h2 : nm ≠ voiceLabel g.voice_count)
    (h3 : fails StatChan.voice = true)
    (h4 : needsRename g StatChan.online → fails StatChan.online = false)
    (h5 : needsRename g StatChan.members → fails StatChan.members = false) :
    StatChan.voice ∈ (tryEditMembers g fails).1 ∧
    (tryEditMembers g fails).2.voice_chan = g.voice_chan := by
  have hov := tryEditOnline_voice_fail g fails nm h1 h2 h3 h4
  have hov2 := tryEditOnline_voice_fail
    { g with members_chan := some (membersLabel g.member_count) } fails
    nm h1 h2 h3 h4
  rcases hm : g.members_chan with _ | mn
  · rw [tryEditMembers]
    simp only [hm]
    exact hov
  · rw [tryEditMembers]
    simp only [hm]
    split_ifs with hx hf
    · simp [h5 ⟨mn, hm, hx⟩] at hf
    · refine ⟨List.mem_cons_of_mem _ hov2.1, hov2.2⟩
    · exact hov

/-! ## Claim theorems -/

/-- C9: a voice-leave event (`before` in voice, `after` not) for a
member with no matching in-memory session is a no-op for XP purposes:
the profile store, the persisted snapshot and the session map are all
unchanged, no XP or voice time is awarded, and the handler returns
normally (no error). -/
theorem voice_leave_without_session_noop (db : DB) (sessions : Sessions)
    (mid c : ℕ) (now : ℚ) (h : alookup sessions mid = none) :
    on_voice_state_update db sessions mid false (some c) none now =
      (db, sessions, none) := by
  simp [on_voice_state_update, h]

/-- Witness for C9 at a concrete input. -/
theorem voice_leave_without_session_noop_witness :
    alookup ([] : Sessions) 1 = none ∧
    on_voice_state_update ⟨[], []⟩ [] 1 false (some 5) none 0 =
      (⟨[], []⟩, [], none) :=
  ⟨rfl, voice_leave_without_session_noop ⟨[], []⟩ [] 1 5 0 rfl⟩

/-- C10: `get_user` inserts a default profile
`{xp 0, level 1, messages 0, voice_time 0, last_xp 0}` at the end of
the map for an absent id, inserts `voice_time = 0` into a stored legacy
record leaving every other field in place, returns a stored normalised
record unchanged, always returns the stored profile (never empty), and
never touches another member's entry. -/
theorem get_user_defaults_and_migrates (st : Store) (uid : String)
    (p : Profile) :
    (alookup st uid = none →
      get_user st uid = (defaultProfile, st ++ [(uid, defaultProfile)])) ∧
    (alookup st uid = some p → p.voice_time = none →
      get_user st uid = ({ p with voice_time := some 0 },
        aset uid ({ p with voice_time := some 0 }) st)) ∧
    (∀ q : ℚ, alookup st uid = some p → p.voice_time = some q →
      get_user st uid = (p, st)) ∧
    alookup (get_user st uid).2 uid = some (get_user st uid).1 ∧
    (∀ k, k ≠ uid → alookup (get_user st uid).2 k = alookup st k) :=
  ⟨get_user_absent st uid,
    get_user_legacy st uid p,
    fun q h hv => get_user_present st uid p q h hv,
    get_user_lookup_self st uid,
    fun k hk => get_user_lookup_other st uid k hk⟩

/-- Witness for C10: migrating the concrete legacy record. -/
theorem get_user_defaults_and_migrates_witness :
    alookup [("1", legacyP)] "1" = some legacyP ∧
    get_user [("1", legacyP)] "1" =
      ({ legacyP with voice_time := some 0 },
        aset "1" ({ legacyP with voice_time := some 0 }) [("1", legacyP)]) :=
  ⟨rfl,
    (get_user_defaults_and_migrates [("1", legacyP)] "1" legacyP).2.1 rfl rfl⟩

/-- C5 counterexample: with all three stat channels bound and stale, a
failing rename of the members channel leaves the members rename as the
only attempted call — the online and voice renames, both needed, are
suppressed by the shared `try`/`except`. -/
theorem stats_rename_failure_counterexample :
    (update_server_stats true gStale
      (fun c => decide (c = StatChan.members))).1 = [StatChan.members] ∧
    needsRename gStale StatChan.online ∧
    needsRename gStale StatChan.voice := by
  refine ⟨?_, ⟨"old-online", rfl, by decide⟩, ⟨"old-voice", rfl, by decide⟩⟩
  have h := tryEditMembers_fail gStale
    (fun c => decide (c = StatChan.members)) "old-members" rfl
    (by decide) (by decide)
  simp only [update_server_stats, if_true]
  rw [h]

/-- C5 (amended): during one reconciliation pass, a rename failure on
any single channel is caught — the pass returns normally and the
failing channel's name stays unchanged — but because all three `edit`
calls share one `try`/`except`, the failure aborts the rename attempts
on the channels processed after the failing one in the fixed order
members, online, voice.  A members failure suppresses the online and
voice renames; an online failure (reached because the members rename
did not raise) suppresses the voice rename; a voice failure is last
and suppresses nothing. -/
theorem stats_rename_failure_caught_but_aborts (g : GuildStats)
    (fails : StatChan → Bool) (nm : String) :
    (g.members_chan = some nm → nm ≠ membersLabel g.member_count →
      fails StatChan.members = true →
      update_server_stats true g fails = ([StatChan.members], g)) ∧
    (g.online_chan = some nm → nm ≠ onlineLabel g.online_count →
      fails StatChan.online = true →
      (needsRename g StatChan.members → fails StatChan.members = false) →
      StatChan.online ∈ (update_server_stats true g fails).1 ∧
      StatChan.voice ∉ (update_server_stats true g fails).1 ∧
      (update_server_stats true g fails).2.online_chan = g.online_chan ∧
      (update_server_stats true g fails).2.voice_chan = g.voice_chan) ∧
    (g.voice_chan = some nm → nm ≠ voiceLabel g.voice_count →
      fails StatChan.voice = true →
      (needsRename g StatChan.online → fails StatChan.online = false) →
      (needsRename g StatChan.members → fails StatChan.members = false) →
      StatChan.voice ∈ (update_server_stats true g fails).1 ∧
      (update_server_stats true g fails).2.voice_chan = g.voice_chan) := by
  refine ⟨fun h1 h2 h3 => ?_, fun h1 h2 h3 h5 => ?_,
    fun h1 h2 h3 h4 h5 => ?_⟩
  · simp only [update_server_stats, if_true]
    exact tryEditMembers_fail g fails nm h1 h2 h3
  · simp only [update_server_stats, if_true]
    exact tryEditMembers_online_fail g fails nm h1 h2 h3 h5
  · simp only [update_server_stats, if_true]
    exact tryEditMembers_voice_fail g fails nm h1 h2 h3 h4 h5

/-- Witness for C5 at the concrete stale guild view, with an oracle
failing exactly the online rename: the members rename goes through,
the online rename is attempted but leaves the name unchanged, and the
voice rename — still needed — is never attempted. -/
theorem stats_rename_failure_caught_but_aborts_witness :
    gStale.online_chan = some "old-online" ∧
    StatChan.online ∈ (update_server_stats true gStale
      (fun c => decide (c = StatChan.online))).1 ∧
    StatChan.voice ∉ (update_server_stats true gStale
      (fun c => decide (c = StatChan.online))).1 ∧
    (update_server_stats true gStale
      (fun c => decide (c = StatChan.online))).2.online_chan =
      gStale.online_chan ∧
    (update_server_stats true gStale
      (fun c => decide (c = StatChan.online))).2.voice_chan =
      gStale.voice_chan :=
  ⟨rfl,
    (stats_rename_failure_caught_but_aborts gStale
      (fun c => decide (c = StatChan.online)) "old-online").2.1
      rfl (by decide) rfl (fun _ => rfl)⟩

/-- C6: every rename call issued by the reconciler targets a bound
channel whose current name differs from the freshly computed label, and
when every bound channel already carries its computed label, zero
rename calls are issued and nothing changes. -/
theorem stats_rename_only_if_changed (g : GuildStats)
    (fails : StatChan → Bool) :
    (∀ c ∈ (update_server_stats true g fails).1, needsRename g c) ∧
    ((∀ nm, g.members_chan = some nm → nm = membersLabel g.member_count) →
      (∀ nm, g.online_chan = some nm → nm = onlineLabel g.online_count) →
      (∀ nm, g.voice_chan = some nm → nm = voiceLabel g.voice_count) →
      update_server_stats true g fails = ([], g)) := by
  constructor
  · simp only [update_server_stats, if_true]
    exact tryEditMembers_attempts g fails
  · intro hm ho hv
    simp only [update_server_stats, if_true]
    exact tryEditMembers_fresh g fails hm ho hv

/-- Witness for C6 at the concrete fresh guild view: no rename calls. -/
theorem stats_rename_only_if_changed_witness :
    update_server_stats true gFresh (fun _ => true) = ([], gFresh) :=
  (stats_rename_only_if_changed gFresh (fun _ => true)).2
    (fun _nm h => (Option.some.inj h).symm)
    (fun _nm h => (Option.some.inj h).symm)
    (fun _nm h => (Option.some.inj h).symm)

/-- C8 counterexample: on an empty store, the `/rank` command's
`db.get_user` call creates and inserts a default profile, so `rankOf`
is not a pure read — the profile map changes. -/
theorem rank_not_pure_counterexample :
    (rank_cmd ⟨[], []⟩ "1").2.data = [("1", defaultProfile)] ∧
    ([] : Store) ≠ [("1", defaultProfile)] := by
  constructor
  · simp [rank_cmd, get_user, alookup, aset]
  · simp

/-- C8 (amended): `topN` (`get_leaderboard`) is a pure function of the
store, and the `/rank` command never writes the persisted snapshot; but
its `get_user` lookup can mutate the in-memory map (creating a default
profile for an absent id, inserting `voice_time` into a legacy record).
For a member whose profile is present and already carries `voice_time`,
`/rank` leaves the whole state unchanged. -/
theorem rank_reads_but_lookup_normalises (db : DB) (uid : String)
    (p : Profile) (q : ℚ) :
    (rank_cmd db uid).2.saved = db.saved ∧
    (rank_cmd db uid).2.data = (get_user db.data uid).2 ∧
    (alookup db.data uid = some p → p.voice_time = some q →
      (rank_cmd db uid).2 = db) := by
  refine ⟨rfl, rfl, fun h1 h2 => ?_⟩
  simp [rank_cmd, get_user_present db.data uid p q h1 h2]

/-- Witness for C8 at a concrete normalised store. -/
theorem rank_reads_but_lookup_normalises_witness :
    alookup [("1", defaultProfile)] "1" = some defaultProfile ∧
    (rank_cmd ⟨[("1", defaultProfile)], []⟩ "1").2 =
      (⟨[("1", defaultProfile)], []⟩ : DB) :=
  ⟨rfl, (rank_reads_but_lookup_normalises ⟨[("1", defaultProfile)], []⟩
    "1" defaultProfile 0).2.2 rfl rfl⟩

/-- `get_user` only normalises: reading the member back out of the
state a lookup produced gives the same profile again. -/
theorem profileOf_get_user_snd (st : Store) (uid : String) :
    profileOf (get_user st uid).2 uid = profileOf st uid := by
  simp [profileOf, get_user_idem]

/-- The stored profile after `add_voice_time`, read back through
`profileOf`: voice time accumulated, xp grown by the truncated gain
when it is positive, level raised exactly when a level-up was
reported. -/
theorem add_voice_time_profileOf (db : DB) (uid : String) (seconds : ℚ) :
    profileOf (add_voice_time db uid seconds).2.data uid =
      { profileOf db.data uid with
          voice_time := some ((profileOf db.data uid).voice_time.getD 0 + seconds),
          xp := (profileOf db.data uid).xp +
            (if 0 < pyInt (seconds / 60 * 10) then pyInt (seconds / 60 * 10) else 0),
          level := (profileOf db.data uid).level +
            (if (add_voice_time db uid seconds).1.1 then 1 else 0) } := by
  have hpro : profileOf (voiceUpdatedDB db uid seconds).data uid =
      { (get_user db.data uid).1 with
          voice_time := some (((get_user db.data uid).1).voice_time.getD 0 + seconds) } := by
    simp [profileOf, voiceUpdatedDB_get_user db uid seconds]
  by_cases hg : 0 < pyInt (seconds / 60 * 10)
  · rw [add_voice_time_of_gain db uid seconds hg,
      add_xp_profileOf (voiceUpdatedDB db uid seconds) uid _, hpro, if_pos hg]
    simp [profileOf]
  · rw [add_voice_time_of_no_gain db uid seconds hg]
    simp only [save_data, if_neg hg, add_zero]
    have : profileOf (voiceUpdatedDB db uid seconds).data uid =
        { profileOf db.data uid with
            voice_time := some ((profileOf db.data uid).voice_time.getD 0 + seconds),
            xp := (profileOf db.data uid).xp,
            level := (profileOf db.data uid).level } := by
      rw [hpro]
      simp [profileOf]
    simpa using this

/-- C1 counterexample: from the default profile, a single
`add_xp(1000)` reports a level-up to level 2 and stores `xp = 1000`,
yet `threshold(2) = 220 ≤ 1000`: the stored xp is not strictly below
the threshold of the returned level, because the check is a single
`if`, not a loop. -/
theorem add_xp_skips_threshold_counterexample :
    (add_xp dbOne "1" 1000).1 = (true, 2) ∧
    alookup (add_xp dbOne "1" 1000).2.data "1" =
      some { defaultProfile with xp := 1000, level := 2 } ∧
    ¬ ((1000 : ℤ) < next_level_xp 2) := by
  have hgu : get_user dbOne.data "1" = (defaultProfile, storeOne) :=
    get_user_present storeOne "1" defaultProfile 0 rfl rfl
  have hc : next_level_xp ((get_user dbOne.data "1").1).level ≤
      ((get_user dbOne.data "1").1).xp + 1000 := by
    rw [hgu]
    decide
  rw [add_xp_of_levelup dbOne "1" 1000 hc]
  refine ⟨?_, ?_, by decide⟩
  · rw [hgu]
    decide
  · simp only [hgu]
    rw [alookup_aset_self]
    simp [defaultProfile]

/-- C1 (amended): `add_xp` adds the amount to xp and performs one
threshold check, so the level rises by at most one per call: the
returned flag is `true` exactly when the new xp reaches
`threshold(level) = 5·level² + 50·level + 100`, the level then rises by
exactly 1 (else not at all), and the returned level is the stored
level.  When no level-up is reported the xp is below the threshold of
the returned level, but after a reported level-up the xp may still be
at or above the new threshold: a single large award can silently skip
thresholds. -/
theorem add_xp_single_threshold_check (db : DB) (uid : String)
    (amount : ℤ) :
    alookup (add_xp db uid amount).2.data uid =
      some { profileOf db.data uid with
        xp := (profileOf db.data uid).xp + amount,
        level := (profileOf db.data uid).level +
          (if (add_xp db uid amount).1.1 then 1 else 0) } ∧
    (add_xp db uid amount).1.2 = (profileOf db.data uid).level +
      (if (add_xp db uid amount).1.1 then 1 else 0) ∧
    ((add_xp db uid amount).1.1 = true ↔
      next_level_xp (profileOf db.data uid).level ≤
        (profileOf db.data uid).xp + amount) := by
  refine ⟨(add_xp_lookup db uid amount).1, (add_xp_lookup db uid amount).2, ?_⟩
  by_cases h : next_level_xp ((get_user db.data uid).1).level ≤
      ((get_user db.data uid).1).xp + amount
  · rw [add_xp_of_levelup db uid amount h]
    simpa [profileOf] using h
  · rw [add_xp_of_no_levelup db uid amount h]
    simpa [profileOf] using h

/-- C4: across `add_xp` (with a non-negative amount, as every caller
awards), `add_voice_time` (any duration) and `on_message` (with a
non-negative drawn amount), a member's xp and level never decrease. -/
theorem xp_and_level_monotone (db : DB) (uid : String) (amount amt : ℤ)
    (seconds now : ℚ) (b g : Bool) :
    (0 ≤ amount →
      (profileOf db.data uid).xp ≤ (profileOf (add_xp db uid amount).2.data uid).xp ∧
      (profileOf db.data uid).level ≤ (profileOf (add_xp db uid amount).2.data uid).level) ∧
    ((profileOf db.data uid).xp ≤ (profileOf (add_voice_time db uid seconds).2.data uid).xp ∧
      (profileOf db.data uid).level ≤ (profileOf (add_voice_time db uid seconds).2.data uid).level) ∧
    (0 ≤ amt →
      (profileOf db.data uid).xp ≤ (profileOf (on_message db uid b g now amt).1.data uid).xp ∧
      (profileOf db.data uid).level ≤ (profileOf (on_message db uid b g now amt).1.data uid).level) := by
  refine ⟨fun h => ?_, ?_, fun h => ?_⟩
  · rw [add_xp_profileOf db uid amount]
    constructor
    · simp
      omega
    · simp
      split_ifs <;> omega
  · rw [add_voice_time_profileOf db uid seconds]
    constructor
    · simp
      split_ifs with hg
      · omega
      · omega
    · simp
      split_ifs <;> omega
  · rcases b with _ | _
    · rcases g with _ | _
      · rw [on_message_skip db uid false false now amt (Or.inr rfl)]
        simp
      · by_cases helig : 10 < now - ((get_user db.data uid).1).last_xp
        · have hp := (on_message_eligible_profile db uid now amt helig).1
          rw [hp]
          simp only [profileOf]
          constructor
          · simp
            omega
          · simp
            split_ifs <;> omega
        · rw [on_message_of_cooldown db uid now amt helig]
          simp only
          rw [profileOf_get_user_snd db.data uid]
          exact ⟨le_refl _, le_refl _⟩
    · rw [on_message_skip db uid true g now amt (Or.inl rfl)]
      simp

/-- Witness for C4 at a concrete input. -/
theorem xp_and_level_monotone_witness :
    (0 : ℤ) ≤ 20 ∧
    (profileOf dbOne.data "1").xp ≤
      (profileOf (add_xp dbOne "1" 20).2.data "1").xp ∧
    (profileOf dbOne.data "1").level ≤
      (profileOf (add_xp dbOne "1" 20).2.data "1").level :=
  ⟨by decide,
    ((xp_and_level_monotone dbOne "1" 20 20 0 0 false true).1 (by decide)).1,
    ((xp_and_level_monotone dbOne "1" 20 20 0 0 false true).1 (by decide)).2⟩

/-- C7: `get_leaderboard` is the stable descending-by-xp sort of the
profile items truncated to 50 entries (it takes no requested count, so
the cap is unconditional): its output is sorted by descending xp, ties
keep their original insertion order (the filter at each xp value is
unchanged), the sort is a permutation of the store, the result never
exceeds 50 entries, and the interactive leaderboard display is its
first 10 entries. -/
theorem leaderboard_sorted_capped_stable (st : Store) (v : ℤ) :
    get_leaderboard st = (sortByXpDesc st).take 50 ∧
    List.Pairwise xpDescRel (get_leaderboard st) ∧
    (sortByXpDesc st).filter (hasXp v) = st.filter (hasXp v) ∧
    List.Perm (sortByXpDesc st) st ∧
    (get_leaderboard st).length ≤ 50 ∧
    leaderboard_top st = (get_leaderboard st).take 10 := by
  refine ⟨rfl, ?_, sortByXpDesc_filter v st, sortByXpDesc_perm st, ?_, rfl⟩
  · exact List.Pairwise.sublist (List.take_sublist 50 _)
      (sortByXpDesc_pairwise st)
  · exact List.length_take_le 50 _

/-- After an eligible message, the member's entry is stored and equal
to what `profileOf` reads back. -/
theorem on_message_eligible_lookup (db : DB) (uid : String) (now : ℚ)
    (amt : ℤ) (h : 10 < now - ((get_user db.data uid).1).last_xp) :
    alookup (on_message db uid false true now amt).1.data uid =
      some (profileOf (on_message db uid false true now amt).1.data uid) := by
  rw [on_message_of_eligible db uid now amt h]
  simp only
  rw [(add_xp_lookup (messageStampedDB db uid now) uid amt).1,
    add_xp_profileOf]
  simp [profileOf]

/-- A store whose entry for `uid` is exactly the profile `get_user`
reports is left unchanged by a further `get_user`. -/
theorem get_user_of_profile_lookup (st : Store) (uid : String)
    (h : alookup st uid = some (profileOf st uid)) :
    get_user st uid = (profileOf st uid, st) := by
  obtain ⟨q, hq⟩ := Option.isSome_iff_exists.mp
    (get_user_voice_time_isSome st uid)
  exact get_user_present st uid _ q h hq

/-- C2 (amended): `add_voice_time` adds the duration to the voice
accumulator; its XP gain is `int((seconds / 60) * 10)` which on
non-negative durations is `floor(seconds / 60 * 10)`; it delegates to
`add_xp` exactly when the gain is positive and otherwise awards nothing
and reports no level-up.  Concretely the gain at 59 seconds is `9`
(nine XP are awarded, not zero) and at 60 seconds it is `10`. -/
theorem award_voice_duration_formula (db : DB) (uid : String)
    (seconds : ℚ) (h : 0 ≤ seconds) :
    pyInt (seconds / 60 * 10) = ⌊seconds / 60 * 10⌋ ∧
    (profileOf (add_voice_time db uid seconds).2.data uid).voice_time =
      some ((profileOf db.data uid).voice_time.getD 0 + seconds) ∧
    (0 < ⌊seconds / 60 * 10⌋ →
      add_voice_time db uid seconds =
        add_xp (voiceUpdatedDB db uid seconds) uid (pyInt (seconds / 60 * 10))) ∧
    (¬ 0 < ⌊seconds / 60 * 10⌋ →
      (add_voice_time db uid seconds).1 = (false, (profileOf db.data uid).level) ∧
      (profileOf (add_voice_time db uid seconds).2.data uid).xp =
        (profileOf db.data uid).xp) ∧
    pyInt ((59 : ℚ) / 60 * 10) = 9 ∧
    pyInt ((60 : ℚ) / 60 * 10) = 10 := by
  have hnn : (0 : ℚ) ≤ seconds / 60 * 10 := by positivity
  have hfloor := pyInt_of_nonneg _ hnn
  refine ⟨hfloor, ?_, fun hpos => ?_, fun hneg => ⟨?_, ?_⟩, ?_, ?_⟩
  · rw [add_voice_time_profileOf db uid seconds]
  · exact add_voice_time_of_gain db uid seconds (by rw [hfloor]; exact hpos)
  · rw [add_voice_time_of_no_gain db uid seconds (by rw [hfloor]; exact hneg)]
    simp [profileOf]
  · rw [add_voice_time_profileOf db uid seconds]
    simp only
    rw [if_neg (by rw [hfloor]; exact hneg)]
    simp
  · rw [pyInt, if_pos (by norm_num : (0 : ℚ) ≤ 59 / 60 * 10)]
    norm_num [Rat.floor_def']
  · rw [pyInt, if_pos (by norm_num : (0 : ℚ) ≤ 60 / 60 * 10)]
    norm_num [Rat.floor_def']

/-- Witness for C2 at a concrete input. -/
theorem award_voice_duration_formula_witness :
    (0 : ℚ) ≤ 60 ∧ pyInt ((60 : ℚ) / 60 * 10) = ⌊(60 : ℚ) / 60 * 10⌋ :=
  ⟨by norm_num,
    (award_voice_duration_formula emptyDB "1" 60 (by norm_num)).1⟩

/-- C2 counterexample: a 59-second award computes `xpGain = 9`, not
`0` — `int((59 / 60) * 10) = int(9.83…) = 9` — so XP *is* awarded for a
sub-minute duration: the default profile ends with `xp = 9`. -/
theorem award_voice_59s_counterexample :
    pyInt ((59 : ℚ) / 60 * 10) = 9 ∧
    (profileOf (add_voice_time emptyDB "1" 59).2.data "1").xp = 9 ∧
    (profileOf (add_voice_time emptyDB "1" 59).2.data "1").voice_time =
      some 59 := by
  have h9 : pyInt ((59 : ℚ) / 60 * 10) = 9 := by
    rw [pyInt, if_pos (by norm_num : (0 : ℚ) ≤ 59 / 60 * 10)]
    norm_num [Rat.floor_def']
  refine ⟨h9, ?_, ?_⟩
  · rw [add_voice_time_profileOf emptyDB "1" 59]
    simp [h9, profileOf, get_user, alookup, defaultProfile, emptyDB]
  · rw [add_voice_time_profileOf emptyDB "1" 59]
    simp [profileOf, get_user, alookup, defaultProfile, emptyDB]

/-- C3 (amended): a message XP award happens exactly when
`now - lastXpTimestamp > 10`; an eligible message increments
`messageCount` by one, stamps `lastXpTimestamp = now` and adds the
drawn amount to xp; an ineligible message awards nothing and changes
the state only by the `get_user` lookup normalisation (which can create
a default profile or insert a missing `voice_time` field); two messages
less than 10 seconds apart yield exactly one award and one counter
increment. -/
theorem message_cooldown_gate (db : DB) (uid : String) (t t2 : ℚ)
    (a1 a2 : ℤ) :
    ((on_message db uid false true t a1).2.isSome ↔
      10 < t - (profileOf db.data uid).last_xp) ∧
    (10 < t - (profileOf db.data uid).last_xp →
      (profileOf (on_message db uid false true t a1).1.data uid).messages =
        (profileOf db.data uid).messages + 1 ∧
      (profileOf (on_message db uid false true t a1).1.data uid).last_xp = t ∧
      (profileOf (on_message db uid false true t a1).1.data uid).xp =
        (profileOf db.data uid).xp + a1) ∧
    (¬ 10 < t - (profileOf db.data uid).last_xp →
      on_message db uid false true t a1 =
        ({ db with data := (get_user db.data uid).2 }, none)) ∧
    (10 < t - (profileOf db.data uid).last_xp → t2 - t < 10 →
      on_message (on_message db uid false true t a1).1 uid false true t2 a2 =
        ((on_message db uid false true t a1).1, none) ∧
      (profileOf (on_message (on_message db uid false true t a1).1 uid
        false true t2 a2).1.data uid).messages =
        (profileOf db.data uid).messages + 1 ∧
      (profileOf (on_message (on_message db uid false true t a1).1 uid
        false true t2 a2).1.data uid).xp =
        (profileOf db.data uid).xp + a1) := by
  have hiff : (on_message db uid false true t a1).2.isSome ↔
      10 < t - ((get_user db.data uid).1).last_xp := by
    by_cases h : 10 < t - ((get_user db.data uid).1).last_xp
    · simp [(on_message_eligible_profile db uid t a1 h).2, h]
    · rw [on_message_of_cooldown db uid t a1 h]
      simpa using h
  refine ⟨hiff, fun h => ?_, fun h => on_message_of_cooldown db uid t a1 h,
    fun h1 h2 => ?_⟩
  · rw [(on_message_eligible_profile db uid t a1 h).1]
    simp [profileOf]
  · have hlast : ((get_user (on_message db uid false true t a1).1.data uid).1).last_xp = t := by
      have h3 : (profileOf (on_message db uid false true t a1).1.data uid).last_xp = t := by
        rw [(on_message_eligible_profile db uid t a1 h1).1]
      exact h3
    have hcool : ¬ 10 < t2 -
        ((get_user (on_message db uid false true t a1).1.data uid).1).last_xp := by
      rw [hlast]
      linarith
    have hgu := get_user_of_profile_lookup _ uid
      (on_message_eligible_lookup db uid t a1 h1)
    have heq : on_message (on_message db uid false true t a1).1 uid
        false true t2 a2 = ((on_message db uid false true t a1).1, none) := by
      rw [on_message_of_cooldown (on_message db uid false true t a1).1
        uid t2 a2 hcool, hgu]
    refine ⟨heq, ?_, ?_⟩
    · rw [heq]
      simp only
      rw [(on_message_eligible_profile db uid t a1 h1).1]
      simp [profileOf]
    · rw [heq]
      simp only
      rw [(on_message_eligible_profile db uid t a1 h1).1]
      simp [profileOf]

/-- Witness for C3: a fresh member's message at `t = 20` is eligible, a
second message at `t2 = 25` (five seconds later) awards nothing. -/
theorem message_cooldown_gate_witness :
    (10 : ℚ) < 20 - (profileOf emptyDB.data "1").last_xp ∧
    (25 : ℚ) - 20 < 10 ∧
    on_message (on_message emptyDB "1" false true 20 20).1 "1"
      false true 25 20 =
      ((on_message emptyDB "1" false true 20 20).1, none) :=
  ⟨by norm_num [profileOf, get_user, alookup, emptyDB, defaultProfile],
    by norm_num,
    ((message_cooldown_gate emptyDB "1" 20 25 20 20).2.2.2
      (by norm_num [profileOf, get_user, alookup, emptyDB, defaultProfile])
      (by norm_num)).1⟩

/-- C3 counterexample: a cooldown-blocked message still mutates the
profile map — the lookup inserts the missing `voice_time` field into a
legacy record — so an ineligible message is not entirely free of
profile-state changes. -/
theorem message_cooldown_counterexample :
    (on_message legacyDB "1" false true 105 20).2 = none ∧
    (on_message legacyDB "1" false true 105 20).1.data ≠ legacyStore := by
  have hgu : get_user legacyDB.data "1" =
      ({ legacyP with voice_time := some 0 },
        aset "1" ({ legacyP with voice_time := some 0 }) legacyStore) :=
    get_user_legacy legacyStore "1" legacyP rfl rfl
  have hcool : ¬ 10 < (105 : ℚ) - ((get_user legacyDB.data "1").1).last_xp := by
    rw [hgu]
    norm_num [legacyP]
  rw [on_message_of_cooldown legacyDB "1" 105 20 hcool]
  refine ⟨rfl, ?_⟩
  simp only
  rw [hgu]
  simp [aset, legacyStore, legacyP]

end GeneralBot
